import Mathlib

/-!
# reader/processor: filtering and enrichment of feed entries

A shallow embedding of `reader/processor/processor.go`:

* `filterFeedEntries`   (lines 61-86)
* `ProcessFeedEntries`  (lines 22-55)
* `ProcessEntryWebPage` (lines 89-112)

The collaborators the file calls (`regexp.MatchString`, `store.EntryURLExists`,
`scraper.Fetch`, `rewrite.Rewriter`, `sanitizer.Sanitize`, the metrics
collector switch) are fields of an environment `Env`, so every theorem
quantifies over all of them.  Every call made to a collaborator is recorded,
in program order, in a list of `Event`s returned next to the result: this is
what statements of the form "fetch is never invoked" are about.

Modelling conventions.

* A collaborator is a function of its arguments: within one run, two calls
  with the same arguments give the same answer.
* A Go `error` is an `Option String`; `nil` is `none`.
* A Go slice of entries is a `List Entry`: the cells of its backing array.
  Reads `s[i]`, writes `s[k] = e` and the reslice `s[:k]` are modelled with a
  bounds check and yield `none` where the Go runtime would abort.
* `feed.Entries` holds pointers to distinct entry objects; each object is
  modelled by its value, and the in-place update of `entry.Content` by the
  replacement of that value in the list.
* `time.Now`, `time.Since` and the text of log lines are not modelled; the
  calls to the metrics collector and the logger are recorded as events.
-/

namespace Processor

/-! ## Data model -/

/-- Modelled from the spec: the declaration of `model.Entry` is not part of the
sources at hand.  The fields are the ones `processor.go` reads or writes;
`ID` stands for the fields the processor never touches. -/
structure Entry where
  ID : Int
  URL : String
  Title : String
  Content : String
deriving DecidableEq

/-- Modelled from the spec: the declaration of `model.Feed` is not part of the
sources at hand.  The fields are the ones `processor.go` reads or writes. -/
structure Feed where
  ID : Int
  Crawler : Bool
  UserAgent : String
  ScraperRules : String
  RewriteRules : String
  KeeplistRules : String
  BlocklistRules : String
  Entries : List Entry
deriving DecidableEq

/-- One call to a collaborator, with the arguments it was given. -/
inductive Event where
  | matchString (pattern s : String)
  | logDebug (feedID : Int) (url : String)
  | entryURLExists (feedID : Int) (url : String)
  | fetch (url rules userAgent : String)
  | observe (status : String)
  | logError (url : String) (err : String)
  | rewriter (url content rules : String)
  | sanitize (url content : String)
deriving DecidableEq

/-- The collaborators of the processor. -/
structure Env where
  /-- The call `regexp.MatchString(pattern, s)`: the match flag and the error. -/
  matchString : String → String → Bool × Option String
  /-- The call `store.EntryURLExists(feedID, url)`. -/
  entryURLExists : Int → String → Bool
  /-- The call `scraper.Fetch(url, rules, userAgent)`: the content and the error. -/
  fetch : String → String → String → String × Option String
  /-- The switch `config.Opts.HasMetricsCollector()`. -/
  hasMetricsCollector : Bool
  /-- The call `rewrite.Rewriter(url, content, rules)`. -/
  rewriter : String → String → String → String
  /-- The call `sanitizer.Sanitize(url, content)`. -/
  sanitize : String → String → String

/-- The builtin `len` on a string: the number of bytes. -/
def len (s : String) : Nat := s.utf8ByteSize

/-! ## filterFeedEntries -/

/-- Lines 65-70: the keep-list loop.  `filteredEntries` grows by `append`. -/
def keepLoop (env : Env) (rules : String) :
    List Entry → List Entry → List Event → List Entry × List Event
  | [], filteredEntries, tr => (filteredEntries, tr)
  | entry :: rest, filteredEntries, tr =>
    let r := env.matchString rules entry.Title
    let tr := tr ++ [Event.matchString rules entry.Title]
    if r.1 == true then
      keepLoop env rules rest (filteredEntries ++ [entry]) tr
    else
      keepLoop env rules rest filteredEntries tr

/-- Lines 76-82: the block-list loop, `for _, entry := range filteredEntries`.
The first argument counts the iterations still to run (the range length is
fixed when the loop starts), `i` is the read index, `k` the write index and
`a` the cells of `filteredEntries`, read and written in place. -/
def blockLoop (env : Env) (rules : String) :
    Nat → Nat → Nat → List Entry → List Event → Option (Nat × List Entry × List Event)
  | 0, _, k, a, tr => some (k, a, tr)
  | rem + 1, i, k, a, tr =>
    match a[i]? with
    | none => none
    | some entry =>
      let r := env.matchString rules entry.Title
      let tr := tr ++ [Event.matchString rules entry.Title]
      if r.1 != true then
        if k < a.length then
          blockLoop env rules rem (i + 1) (k + 1) (a.set k entry) tr
        else none
      else
        blockLoop env rules rem (i + 1) k a tr

/-- The reslice `s[:k]` (line 83); it needs `k` within the slice. -/
def sliceTo (a : List Entry) (k : Nat) : Option (List Entry) :=
  if k ≤ a.length then some (a.take k) else none

/-- Lines 64-73: the keep-list stage.  Without a keep-list `filteredEntries`
is `feed.Entries` itself (the same backing array). -/
def keepStage (env : Env) (feed : Feed) : List Entry × List Event :=
  if len feed.KeeplistRules > 0 then
    keepLoop env feed.KeeplistRules feed.Entries [] []
  else
    (feed.Entries, [])

/-- Lines 61-86. Returns the feed with its new `Entries` and the calls made,
or `none` if an index is out of range. -/
def filterFeedEntries (env : Env) (feed : Feed) : Option (Feed × List Event) :=
  let stage1 := keepStage env feed
  if len feed.BlocklistRules > 0 then
    match blockLoop env feed.BlocklistRules stage1.1.length 0 0 stage1.1 stage1.2 with
    | none => none
    | some (k, a, tr) =>
      match sliceTo a k with
      | none => none
      | some filteredEntries => some ({ feed with Entries := filteredEntries }, tr)
  else
    some ({ feed with Entries := stage1.1 }, stage1.2)

/-! ## ProcessFeedEntries -/

/-- Lines 28-48: the crawl of one entry. -/
def enrich (env : Env) (feed : Feed) (entry : Entry) : Entry × List Event :=
  if feed.Crawler then
    if !env.entryURLExists feed.ID entry.URL then
      let r := env.fetch entry.URL feed.ScraperRules feed.UserAgent
      let content := r.1
      let scraperErr := r.2
      let tr := [Event.entryURLExists feed.ID entry.URL,
                 Event.fetch entry.URL feed.ScraperRules feed.UserAgent]
      let tr :=
        if env.hasMetricsCollector then
          tr ++ [Event.observe (if scraperErr ≠ none then "error" else "success")]
        else tr
      match scraperErr with
      | some err => (entry, tr ++ [Event.logError entry.URL err])
      | none =>
        if content ≠ "" then ({ entry with Content := content }, tr)
        else (entry, tr)
    else (entry, [Event.entryURLExists feed.ID entry.URL])
  else (entry, [])

/-- Lines 27-53: the body of the loop over `feed.Entries`. -/
def processEntry (env : Env) (feed : Feed) (entry : Entry) : Entry × List Event :=
  let tr := [Event.logDebug feed.ID entry.URL]
  let s := enrich env feed entry
  let entry := s.1
  let tr := tr ++ s.2
  let tr := tr ++ [Event.rewriter entry.URL entry.Content feed.RewriteRules]
  let entry := { entry with Content := env.rewriter entry.URL entry.Content feed.RewriteRules }
  let tr := tr ++ [Event.sanitize entry.URL entry.Content]
  let entry := { entry with Content := env.sanitize entry.URL entry.Content }
  (entry, tr)

/-- Lines 26-54: the loop over `feed.Entries`. -/
def processEntries (env : Env) (feed : Feed) : List Entry → List Entry × List Event
  | [] => ([], [])
  | entry :: rest =>
    let s := processEntry env feed entry
    let t := processEntries env feed rest
    (s.1 :: t.1, s.2 ++ t.2)

/-- Lines 22-55. -/
def ProcessFeedEntries (env : Env) (feed : Feed) : Option (Feed × List Event) :=
  match filterFeedEntries env feed with
  | none => none
  | some (feed, tr) =>
    let s := processEntries env feed feed.Entries
    some ({ feed with Entries := s.1 }, tr ++ s.2)

/-! ## ProcessEntryWebPage -/

/-- Lines 89-112.  `feed` is the feed `entry.Feed` points to.  Returns the
entry, the error and the calls made. -/
def ProcessEntryWebPage (env : Env) (feed : Feed) (entry : Entry) :
    Entry × Option String × List Event :=
  let r := env.fetch entry.URL feed.ScraperRules feed.UserAgent
  let content := r.1
  let scraperErr := r.2
  let tr := [Event.fetch entry.URL feed.ScraperRules feed.UserAgent]
  let tr :=
    if env.hasMetricsCollector then
      tr ++ [Event.observe (if scraperErr ≠ none then "error" else "success")]
    else tr
  match scraperErr with
  | some err => (entry, some err, tr)
  | none =>
    let tr := tr ++ [Event.rewriter entry.URL content feed.RewriteRules]
    let content := env.rewriter entry.URL content feed.RewriteRules
    let tr := tr ++ [Event.sanitize entry.URL content]
    let content := env.sanitize entry.URL content
    if content ≠ "" then ({ entry with Content := content }, none, tr)
    else (entry, none, tr)

/-! ## Reading the record of calls -/

/-- The arguments of the calls to `scraper.Fetch`, in order. -/
def fetchCalls (tr : List Event) : List (String × String × String) :=
  tr.filterMap (fun ev =>
    match ev with
    | Event.fetch url rules userAgent => some (url, rules, userAgent)
    | _ => none)

/-- The arguments of the calls to `rewrite.Rewriter`, in order. -/
def rewriterCalls (tr : List Event) : List (String × String × String) :=
  tr.filterMap (fun ev =>
    match ev with
    | Event.rewriter url content rules => some (url, content, rules)
    | _ => none)

/-- The arguments of the calls to `sanitizer.Sanitize`, in order. -/
def sanitizeCalls (tr : List Event) : List (String × String) :=
  tr.filterMap (fun ev =>
    match ev with
    | Event.sanitize url content => some (url, content)
    | _ => none)

/-- The arguments of the calls to `store.EntryURLExists`, in order. -/
def existsCalls (tr : List Event) : List (Int × String) :=
  tr.filterMap (fun ev =>
    match ev with
    | Event.entryURLExists feedID url => some (feedID, url)
    | _ => none)

/-- The arguments of the calls to `regexp.MatchString`, in order. -/
def matchCalls (tr : List Event) : List (String × String) :=
  tr.filterMap (fun ev =>
    match ev with
    | Event.matchString pattern s => some (pattern, s)
    | _ => none)

/-- The calls to `regexp.MatchString` of one pass over `l` with `rules`. -/
def matchEvents (rules : String) (l : List Entry) : List Event :=
  l.map (fun e => Event.matchString rules e.Title)

/-! ## The filter as the specification words it -/

/-- An entry passes the keep-list stage: no keep-list, or its title matches. -/
def passesKeep (env : Env) (feed : Feed) (e : Entry) : Bool :=
  decide (feed.KeeplistRules = "") || (env.matchString feed.KeeplistRules e.Title).1

/-- An entry passes the block-list stage: no block-list, or its title does
not match. -/
def passesBlock (env : Env) (feed : Feed) (e : Entry) : Bool :=
  decide (feed.BlocklistRules = "") || !(env.matchString feed.BlocklistRules e.Title).1

/-- An entry survives when it passes both stages. -/
def survives (env : Env) (feed : Feed) (e : Entry) : Bool :=
  passesKeep env feed e && passesBlock env feed e

/-- Block-list filtering as a filter into a new list: the entries whose title
does not match `rules`, in order. -/
def blockFilterSpec (env : Env) (rules : String) (l : List Entry) : List Entry :=
  l.filter (fun e => !(env.matchString rules e.Title).1)

/-! ## Sample collaborators and inputs -/

/-- A stand-in for `regexp.MatchString` on the patterns of the examples: a
pattern with an unbalanced parenthesis does not compile (no match, with an
error); a pattern `^lit` matches the strings that start with `lit`; any other
pattern is taken literally and matches the strings that contain it. -/
def sampleMatchString (pattern s : String) : Bool × Option String :=
  if pattern.toList.count '(' ≠ pattern.toList.count ')' then
    (false, some "error parsing regexp: missing closing )")
  else
    match pattern.toList with
    | '^' :: p => (p.isPrefixOf s.toList, none)
    | p => (s.toList.tails.any (fun t => p.isPrefixOf t), none)

/-- Sample collaborators: one URL is already stored, one cannot be fetched,
one yields nothing, one yields only a script; the rewrite rule
`add_youtube_video` puts a player in front of the content; the sanitizer
drops content that starts with a script. -/
def sampleEnv : Env where
  matchString := sampleMatchString
  entryURLExists := fun _ url => url == "https://example.org/seen"
  fetch := fun url _ _ =>
    if url == "https://example.org/down" then ("", some "connection refused")
    else if url == "https://example.org/empty" then ("", none)
    else if url == "https://example.org/script" then ("<script>alert(1)</script>", none)
    else ("<p>full text</p>", none)
  hasMetricsCollector := true
  rewriter := fun _ content rules =>
    if rules == "add_youtube_video" then "<iframe></iframe><br>" ++ content else content
  sanitize := fun _ content =>
    if "<script>".toList.isPrefixOf content.toList then "" else content

/-- A sample entry with the summary the feed gave. -/
def sampleEntry (id : Int) (url title : String) : Entry :=
  { ID := id, URL := url, Title := title, Content := "summary" }

/-- The three titles of the specification's example. -/
def sampleEntries : List Entry :=
  [sampleEntry 1 "https://example.org/go12" "Go 1.2",
   sampleEntry 2 "https://example.org/seen" "Python",
   sampleEntry 3 "https://example.org/down" "Golang"]

/-- A sample feed with the given crawler flag, rewrite rules, keep-list and
block-list. -/
def sampleFeed (crawler : Bool) (rewriteRules keep block : String) : Feed :=
  { ID := 7, Crawler := crawler, UserAgent := "ua", ScraperRules := "article",
    RewriteRules := rewriteRules, KeeplistRules := keep, BlocklistRules := block,
    Entries := sampleEntries }

/-! ## Lemmas on the filter -/

theorem len_pos_iff (s : String) : len s > 0 ↔ s ≠ "" := by
  rcases s with ⟨l⟩
  cases l with
  | nil => simp [len, String.utf8ByteSize, String.utf8ByteSize.go]
  | cons c cs =>
    simp only [len, String.utf8ByteSize, String.utf8ByteSize.go]
    constructor
    · intro _ h
      have := congrArg String.data h
      simp at this
    · intro _
      have := Char.utf8Size_pos c
      omega

theorem keepLoop_eq (env : Env) (rules : String) (l acc : List Entry) (tr : List Event) :
    keepLoop env rules l acc tr =
      (acc ++ l.filter (fun e => (env.matchString rules e.Title).1),
        tr ++ matchEvents rules l) := by
  induction l generalizing acc tr with
  | nil => simp [keepLoop, matchEvents]
  | cons e rest ih =>
    simp only [keepLoop, matchEvents, List.map_cons, List.filter_cons]
    by_cases h : (env.matchString rules e.Title).1 = true
    · simp [h, ih, matchEvents]
    · simp [h, ih, matchEvents]

/-- The state of the block-list loop after `rem` iterations started at read
index `i` and write index `k`. -/
theorem blockLoop_eq (env : Env) (rules : String) (rem : Nat) :
    ∀ (i k : Nat) (a : List Entry) (tr : List Event), k ≤ i → i + rem ≤ a.length →
      ∃ b, blockLoop env rules rem i k a tr =
            some (k + (blockFilterSpec env rules ((a.drop i).take rem)).length, b,
                  tr ++ matchEvents rules ((a.drop i).take rem)) ∧
          b.length = a.length ∧
          b.take (k + (blockFilterSpec env rules ((a.drop i).take rem)).length) =
            a.take k ++ blockFilterSpec env rules ((a.drop i).take rem) ∧
          b.drop (i + rem) = a.drop (i + rem) := by
  induction rem with
  | zero =>
    intro i k a tr _ _
    exact ⟨a, by simp [blockLoop, blockFilterSpec, matchEvents]⟩
  | succ rem ih =>
    intro i k a tr hk hi
    have hlt : i < a.length := by omega
    have hget : a[i]? = some a[i] := List.getElem?_eq_getElem hlt
    have hsplit : (a.drop i).take (rem + 1) = a[i] :: (a.drop (i + 1)).take rem := by
      rw [List.drop_eq_getElem_cons hlt, List.take_succ_cons]
    by_cases hm : (env.matchString rules a[i].Title).1 = true
    · obtain ⟨b, hb, hlen, htake, hdrop⟩ :=
        ih (i + 1) k a (tr ++ [Event.matchString rules a[i].Title]) (by omega) (by omega)
      refine ⟨b, ?_, hlen, ?_, ?_⟩
      · simp only [blockLoop, hget, hm, hsplit]
        simp [hb, blockFilterSpec, matchEvents, hm]
      · simpa [hsplit, blockFilterSpec, hm] using htake
      · simpa [Nat.add_assoc, Nat.add_comm 1 rem] using hdrop
    · have hkl : k < a.length := by omega
      obtain ⟨b, hb, hlen, htake, hdrop⟩ :=
        ih (i + 1) (k + 1) (a.set k a[i]) (tr ++ [Event.matchString rules a[i].Title])
          (by omega) (by simpa using (by omega : i + 1 + rem ≤ a.length))
      have hd1 : (a.set k a[i]).drop (i + 1) = a.drop (i + 1) :=
        List.drop_set_of_lt _ _ (by omega)
      have ht1 : (a.set k a[i]).take (k + 1) = a.take k ++ [a[i]] := by
        rw [List.take_succ, List.set_take, List.set_eq_of_length_le (by simp),
          List.getElem?_set_self hkl]
        rfl
      have hf : blockFilterSpec env rules (a[i] :: (a.drop (i + 1)).take rem) =
          a[i] :: blockFilterSpec env rules ((a.drop (i + 1)).take rem) := by
        simp [blockFilterSpec, hm]
      rw [hd1] at hb htake
      rw [List.length_set] at hlen
      refine ⟨b, ?_, hlen, ?_, ?_⟩
      · simp only [blockLoop, hget, hsplit, hf]
        simp [hm, hkl, hb, matchEvents, Nat.add_assoc, Nat.add_comm 1]
      · rw [hsplit, hf, List.length_cons]
        rw [show k + ((blockFilterSpec env rules ((a.drop (i + 1)).take rem)).length + 1) =
          k + 1 + (blockFilterSpec env rules ((a.drop (i + 1)).take rem)).length by omega,
          htake, ht1]
        simp
      · rw [show i + (rem + 1) = i + 1 + rem by omega, hdrop]
        exact List.drop_set_of_lt _ _ (by omega)

/-- The first `j` iterations of the block-list loop, from the start. -/
theorem blockLoop_prefix (env : Env) (rules : String) (a : List Entry) (tr : List Event)
    (j : Nat) (hj : j ≤ a.length) :
    ∃ b, blockLoop env rules j 0 0 a tr =
          some ((blockFilterSpec env rules (a.take j)).length, b,
                tr ++ matchEvents rules (a.take j)) ∧
        b.length = a.length ∧
        b.take (blockFilterSpec env rules (a.take j)).length =
          blockFilterSpec env rules (a.take j) ∧
        b.drop j = a.drop j := by
  obtain ⟨b, hb, hlen, htake, hdrop⟩ :=
    blockLoop_eq env rules j 0 0 a tr (Nat.le_refl 0) (by omega)
  refine ⟨b, ?_, hlen, ?_, ?_⟩
  · simpa using hb
  · simpa using htake
  · simpa using hdrop

theorem blockFilterSpec_length_le (env : Env) (rules : String) (l : List Entry) :
    (blockFilterSpec env rules l).length ≤ l.length :=
  List.length_filter_le _ l

/-- The block-list loop followed by the reslice. -/
theorem blockLoop_sliceTo (env : Env) (rules : String) (a : List Entry) (tr : List Event) :
    ∃ b, blockLoop env rules a.length 0 0 a tr =
          some ((blockFilterSpec env rules a).length, b, tr ++ matchEvents rules a) ∧
        b.length = a.length ∧
        sliceTo b (blockFilterSpec env rules a).length = some (blockFilterSpec env rules a) := by
  obtain ⟨b, hb, hlen, htake, _⟩ := blockLoop_prefix env rules a tr a.length (Nat.le_refl _)
  rw [List.take_length] at hb htake
  refine ⟨b, hb, hlen, ?_⟩
  have hle := blockFilterSpec_length_le env rules a
  simp [sliceTo, hlen, hle, htake]

theorem passesKeep_eq (env : Env) (feed : Feed) :
    passesKeep env feed =
      if feed.KeeplistRules = "" then (fun _ => true)
      else (fun e => (env.matchString feed.KeeplistRules e.Title).1) := by
  funext e
  by_cases h : feed.KeeplistRules = "" <;> simp [passesKeep, h]

theorem passesBlock_eq (env : Env) (feed : Feed) :
    passesBlock env feed =
      if feed.BlocklistRules = "" then (fun _ => true)
      else (fun e => !(env.matchString feed.BlocklistRules e.Title).1) := by
  funext e
  by_cases h : feed.BlocklistRules = "" <;> simp [passesBlock, h]

theorem keepStage_eq (env : Env) (feed : Feed) :
    keepStage env feed =
      (feed.Entries.filter (passesKeep env feed),
        if feed.KeeplistRules = "" then [] else matchEvents feed.KeeplistRules feed.Entries) := by
  unfold keepStage
  rw [passesKeep_eq]
  by_cases h : feed.KeeplistRules = ""
  · have h0 : ¬ len feed.KeeplistRules > 0 := fun hp => (len_pos_iff _).1 hp h
    rw [if_neg h0, if_pos h, if_pos h]
    simp
  · have h1 : len feed.KeeplistRules > 0 := (len_pos_iff _).2 h
    rw [if_pos h1, if_neg h, if_neg h, keepLoop_eq]
    simp

/-- What `filterFeedEntries` returns: the surviving entries and the calls to
the matcher. -/
theorem filterFeedEntries_eq (env : Env) (feed : Feed) :
    filterFeedEntries env feed =
      some ({ feed with Entries := feed.Entries.filter (survives env feed) },
        (keepStage env feed).2 ++
          (if feed.BlocklistRules = "" then []
           else matchEvents feed.BlocklistRules (keepStage env feed).1)) := by
  have hsurv : feed.Entries.filter (survives env feed) =
      (feed.Entries.filter (passesKeep env feed)).filter (passesBlock env feed) := by
    rw [List.filter_filter]
    congr 1
    funext e
    simp [survives, Bool.and_comm]
  have hk : (keepStage env feed).1 = feed.Entries.filter (passesKeep env feed) := by
    rw [keepStage_eq]
  unfold filterFeedEntries
  rw [hsurv, passesBlock_eq]
  by_cases h : feed.BlocklistRules = ""
  · have h0 : ¬ len feed.BlocklistRules > 0 := fun hp => (len_pos_iff _).1 hp h
    simp only [if_neg h0, if_pos h, List.append_nil, hk]
    simp
  · have h1 : len feed.BlocklistRules > 0 := (len_pos_iff _).2 h
    obtain ⟨b, hb, _, hs⟩ :=
      blockLoop_sliceTo env feed.BlocklistRules (keepStage env feed).1 (keepStage env feed).2
    simp only [if_pos h1, hb, hs, if_neg h]
    rw [hk]
    rfl

/-! ## filterFeedEntries: the claims -/

/-- C1. `filterFeedEntries` leaves in `feed.Entries` the original list
restricted, in order, to the entries that pass the keep-list stage (no
keep-list, or the title matches it) and the block-list stage (no block-list,
or the title does not match it); an entry is in the result iff it was in the
input and passes both.  With the titles "Go 1.2", "Python", "Golang" and the
keep-list "^Go" the result is "Go 1.2", "Golang"; with the block-list "lang"
added it is "Go 1.2". -/
theorem filterFeedEntries_keeps_exactly_survivors :
    (∀ (env : Env) (feed : Feed), ∃ tr,
      filterFeedEntries env feed =
        some ({ feed with Entries := feed.Entries.filter (fun e =>
          (decide (feed.KeeplistRules = "") || (env.matchString feed.KeeplistRules e.Title).1) &&
          (decide (feed.BlocklistRules = "") ||
            !(env.matchString feed.BlocklistRules e.Title).1)) }, tr)) ∧
    (∀ (env : Env) (feed : Feed) (e : Entry), ∃ feed1 tr,
      filterFeedEntries env feed = some (feed1, tr) ∧
      (e ∈ feed1.Entries ↔
        e ∈ feed.Entries ∧
        (feed.KeeplistRules = "" ∨ (env.matchString feed.KeeplistRules e.Title).1 = true) ∧
        (feed.BlocklistRules = "" ∨ (env.matchString feed.BlocklistRules e.Title).1 = false))) ∧
    ((filterFeedEntries sampleEnv (sampleFeed false "" "^Go" "")).map
        (fun r => r.1.Entries.map (fun e => e.Title)) = some ["Go 1.2", "Golang"]) ∧
    ((filterFeedEntries sampleEnv (sampleFeed false "" "^Go" "lang")).map
        (fun r => r.1.Entries.map (fun e => e.Title)) = some ["Go 1.2"]) := by
  refine ⟨?_, ?_, by decide, by decide⟩
  · intro env feed
    exact ⟨_, filterFeedEntries_eq env feed⟩
  · intro env feed e
    refine ⟨_, _, filterFeedEntries_eq env feed, ?_⟩
    simp [survives, passesKeep, passesBlock]

/-- C2. The entry list left by `filterFeedEntries` is a subsequence of the
original `feed.Entries`: nothing is introduced or duplicated and the relative
order is kept.  The other fields of the feed are unchanged. -/
theorem filterFeedEntries_sublist (env : Env) (feed : Feed) :
    ∃ kept tr, filterFeedEntries env feed = some ({ feed with Entries := kept }, tr) ∧
      kept.Sublist feed.Entries :=
  ⟨_, _, filterFeedEntries_eq env feed, List.filter_sublist _⟩

/-- C8. With an empty keep-list and an empty block-list `filterFeedEntries`
returns the feed as it was and makes no call to the matcher. -/
theorem filterFeedEntries_no_rules (env : Env) (feed : Feed)
    (hkeep : feed.KeeplistRules = "") (hblock : feed.BlocklistRules = "") :
    filterFeedEntries env feed = some (feed, []) := by
  have hall : feed.Entries.filter (survives env feed) = feed.Entries := by
    rw [List.filter_eq_self]
    intro e _
    simp [survives, passesKeep, passesBlock, hkeep, hblock]
  rw [filterFeedEntries_eq, keepStage_eq, hall, if_pos hkeep, if_pos hblock]
  rfl

/-- Witness of C8 on the sample feed without rules. -/
theorem filterFeedEntries_no_rules_witness :
    (sampleFeed true "" "" "").KeeplistRules = "" ∧
    (sampleFeed true "" "" "").BlocklistRules = "" ∧
    filterFeedEntries sampleEnv (sampleFeed true "" "" "") =
      some (sampleFeed true "" "" "", []) :=
  ⟨rfl, rfl, filterFeedEntries_no_rules sampleEnv (sampleFeed true "" "" "") rfl rfl⟩

/-- C9. When the matcher fails on a pattern (no match, with an error, on
every string) `filterFeedEntries` still returns: with such a non-empty
keep-list no entry is left; with such a non-empty block-list the result is the
output of the keep-list stage. -/
theorem filterFeedEntries_matcher_error (env : Env) (feed : Feed) :
    (len feed.KeeplistRules > 0 →
      (∀ s, ∃ err, env.matchString feed.KeeplistRules s = (false, some err)) →
      ∃ tr, filterFeedEntries env feed = some ({ feed with Entries := [] }, tr)) ∧
    (len feed.BlocklistRules > 0 →
      (∀ s, ∃ err, env.matchString feed.BlocklistRules s = (false, some err)) →
      ∃ tr, filterFeedEntries env feed =
        some ({ feed with Entries := (keepStage env feed).1 }, tr)) := by
  constructor
  · intro hlen hbad
    rw [filterFeedEntries_eq]
    have hne : feed.KeeplistRules ≠ "" := (len_pos_iff _).1 hlen
    have : feed.Entries.filter (survives env feed) = [] := by
      rw [List.filter_eq_nil_iff]
      intro e _
      obtain ⟨err, he⟩ := hbad e.Title
      simp [survives, passesKeep, hne, he]
    rw [this]
    exact ⟨_, rfl⟩
  · intro hlen hbad
    rw [filterFeedEntries_eq]
    have hne : feed.BlocklistRules ≠ "" := (len_pos_iff _).1 hlen
    have : feed.Entries.filter (survives env feed) = (keepStage env feed).1 := by
      rw [keepStage_eq]
      apply List.filter_congr
      intro e _
      obtain ⟨err, he⟩ := hbad e.Title
      simp [survives, passesBlock, hne, he]
    rw [this]
    exact ⟨_, rfl⟩

/-- Witness of C9: the pattern "(" does not compile. -/
theorem filterFeedEntries_matcher_error_witness :
    (len "(" > 0 ∧ (∀ s, ∃ err, sampleEnv.matchString "(" s = (false, some err))) ∧
    (∃ tr, filterFeedEntries sampleEnv (sampleFeed false "" "(" "") =
      some ({ sampleFeed false "" "(" "" with Entries := [] }, tr)) ∧
    (∃ tr, filterFeedEntries sampleEnv (sampleFeed false "" "^Go" "(") =
      some ({ sampleFeed false "" "^Go" "(" with
        Entries := [sampleEntry 1 "https://example.org/go12" "Go 1.2",
                    sampleEntry 3 "https://example.org/down" "Golang"] }, tr)) :=
  ⟨⟨by decide, fun _ => ⟨_, rfl⟩⟩,
   (filterFeedEntries_matcher_error sampleEnv (sampleFeed false "" "(" "")).1
      (by decide) (fun _ => ⟨_, rfl⟩),
   (filterFeedEntries_matcher_error sampleEnv (sampleFeed false "" "^Go" "(")).2
      (by decide) (fun _ => ⟨_, rfl⟩)⟩

/-- C10. The in-place compaction loop computes the same sequence as filtering
into a new list.  After any number `j` of iterations the write index `k` is at
most the read index `j`, the first `k` cells hold the filtered prefix, and the
cells from `j` on, still to be read, are untouched.  After the last iteration
`k` is within the slice, so the reslice succeeds and yields the filtered list;
this is so too when the loop runs on `feed.Entries` itself (no keep-list). -/
theorem blockLoop_refines_blockFilterSpec (env : Env) (rules : String) (a : List Entry)
    (tr : List Event) :
    (∀ j, j ≤ a.length → ∃ k b t, blockLoop env rules j 0 0 a tr = some (k, b, t) ∧
      k ≤ j ∧ b.length = a.length ∧
      b.take k = blockFilterSpec env rules (a.take j) ∧ b.drop j = a.drop j) ∧
    (∃ k b t, blockLoop env rules a.length 0 0 a tr = some (k, b, t) ∧
      k ≤ b.length ∧ sliceTo b k = some (blockFilterSpec env rules a)) ∧
    (∀ feed : Feed, feed.KeeplistRules = "" → len feed.BlocklistRules > 0 → ∃ t,
      filterFeedEntries env feed =
        some ({ feed with Entries := blockFilterSpec env feed.BlocklistRules feed.Entries }, t)) := by
  refine ⟨?_, ?_, ?_⟩
  · intro j hj
    obtain ⟨b, hb, hlen, htake, hdrop⟩ := blockLoop_prefix env rules a tr j hj
    refine ⟨_, b, _, hb, ?_, hlen, htake, hdrop⟩
    have := blockFilterSpec_length_le env rules (a.take j)
    simpa [List.length_take, Nat.min_eq_left hj] using this
  · obtain ⟨b, hb, hlen, hs⟩ := blockLoop_sliceTo env rules a tr
    refine ⟨_, b, _, hb, ?_, hs⟩
    rw [hlen]
    exact blockFilterSpec_length_le env rules a
  · intro feed hkeep hlen
    rw [filterFeedEntries_eq]
    have hne : feed.BlocklistRules ≠ "" := (len_pos_iff _).1 hlen
    have : feed.Entries.filter (survives env feed) =
        blockFilterSpec env feed.BlocklistRules feed.Entries := by
      unfold blockFilterSpec
      congr 1
      funext e
      simp [survives, passesKeep, passesBlock, hkeep, hne]
    rw [this]
    exact ⟨_, rfl⟩

/-- Witness of C10 on the sample entries with the block-list "lang": after two
iterations, and for the whole feed. -/
theorem blockLoop_refines_blockFilterSpec_witness :
    (2 ≤ sampleEntries.length ∧
      ∃ k b t, blockLoop sampleEnv "lang" 2 0 0 sampleEntries [] = some (k, b, t) ∧
        k ≤ 2 ∧ b.length = sampleEntries.length ∧
        b.take k = blockFilterSpec sampleEnv "lang" (sampleEntries.take 2) ∧
        b.drop 2 = sampleEntries.drop 2) ∧
    ((sampleFeed false "" "" "lang").KeeplistRules = "" ∧
      len (sampleFeed false "" "" "lang").BlocklistRules > 0 ∧
      ∃ t, filterFeedEntries sampleEnv (sampleFeed false "" "" "lang") =
        some ({ sampleFeed false "" "" "lang" with
          Entries := blockFilterSpec sampleEnv "lang" sampleEntries }, t)) :=
  ⟨⟨by decide,
    (blockLoop_refines_blockFilterSpec sampleEnv "lang" sampleEntries []).1 2 (by decide)⟩,
   ⟨rfl, by decide,
    (blockLoop_refines_blockFilterSpec sampleEnv "lang" sampleEntries []).2.2
      (sampleFeed false "" "" "lang") rfl (by decide)⟩⟩

/-! ## Lemmas on the enrichment -/

theorem processEntries_fst (env : Env) (feed : Feed) (l : List Entry) :
    (processEntries env feed l).1 = l.map (fun e => (processEntry env feed e).1) := by
  induction l with
  | nil => rfl
  | cons e rest ih => simp [processEntries, ih]

theorem processEntries_snd (env : Env) (feed : Feed) (l : List Entry) :
    (processEntries env feed l).2 = l.flatMap (fun e => (processEntry env feed e).2) := by
  induction l with
  | nil => rfl
  | cons e rest ih => simp [processEntries, ih]

/-- What `ProcessFeedEntries` returns, entry by entry. -/
theorem ProcessFeedEntries_eq (env : Env) (feed : Feed) (kept : List Entry) (t0 : List Event)
    (h : filterFeedEntries env feed = some ({ feed with Entries := kept }, t0)) :
    ProcessFeedEntries env feed =
      some ({ feed with Entries := kept.map (fun e => (processEntry env feed e).1) },
        t0 ++ kept.flatMap (fun e => (processEntry env feed e).2)) := by
  unfold ProcessFeedEntries
  rw [h]
  simp only [processEntries_fst, processEntries_snd]
  rfl

theorem fetchCalls_enrich (env : Env) (feed : Feed) (e : Entry) :
    fetchCalls (enrich env feed e).2 =
      if feed.Crawler = true ∧ env.entryURLExists feed.ID e.URL = false then
        [(e.URL, feed.ScraperRules, feed.UserAgent)]
      else [] := by
  unfold enrich
  cases hc : feed.Crawler <;> cases hx : env.entryURLExists feed.ID e.URL <;>
    cases hm : env.hasMetricsCollector <;>
    cases hf : (env.fetch e.URL feed.ScraperRules feed.UserAgent).2 <;>
    by_cases hne : (env.fetch e.URL feed.ScraperRules feed.UserAgent).1 = "" <;>
    simp [fetchCalls, hne, hf]

theorem fetchCalls_processEntry (env : Env) (feed : Feed) (e : Entry) :
    fetchCalls (processEntry env feed e).2 =
      if feed.Crawler = true ∧ env.entryURLExists feed.ID e.URL = false then
        [(e.URL, feed.ScraperRules, feed.UserAgent)]
      else [] := by
  have h := fetchCalls_enrich env feed e
  unfold fetchCalls at h ⊢
  simp only [processEntry, List.filterMap_append, h]
  simp

theorem fetchCalls_append (s t : List Event) :
    fetchCalls (s ++ t) = fetchCalls s ++ fetchCalls t := by
  simp [fetchCalls]

theorem fetchCalls_matchEvents (rules : String) (l : List Entry) :
    fetchCalls (matchEvents rules l) = [] := by
  simp [fetchCalls, matchEvents]

theorem fetchCalls_flatMap (env : Env) (feed : Feed) (l : List Entry) :
    fetchCalls (l.flatMap (fun e => (processEntry env feed e).2)) =
      (l.filter (fun e => feed.Crawler && !env.entryURLExists feed.ID e.URL)).map
        (fun e => (e.URL, feed.ScraperRules, feed.UserAgent)) := by
  induction l with
  | nil => rfl
  | cons e rest ih =>
    rw [List.flatMap_cons, fetchCalls_append, ih, fetchCalls_processEntry, List.filter_cons]
    cases hc : feed.Crawler <;> cases hx : env.entryURLExists feed.ID e.URL <;> simp

theorem enrich_URL (env : Env) (feed : Feed) (e : Entry) :
    (enrich env feed e).1.URL = e.URL := by
  unfold enrich
  cases hc : feed.Crawler <;> cases hx : env.entryURLExists feed.ID e.URL <;>
    cases hf : (env.fetch e.URL feed.ScraperRules feed.UserAgent).2 <;>
    by_cases hne : (env.fetch e.URL feed.ScraperRules feed.UserAgent).1 = "" <;>
    simp [hne, hf]

theorem transformCalls_enrich (env : Env) (feed : Feed) (e : Entry) :
    rewriterCalls (enrich env feed e).2 = [] ∧ sanitizeCalls (enrich env feed e).2 = [] := by
  unfold enrich
  cases hc : feed.Crawler <;> cases hx : env.entryURLExists feed.ID e.URL <;>
    cases hm : env.hasMetricsCollector <;>
    cases hf : (env.fetch e.URL feed.ScraperRules feed.UserAgent).2 <;>
    by_cases hne : (env.fetch e.URL feed.ScraperRules feed.UserAgent).1 = "" <;>
    simp [rewriterCalls, sanitizeCalls, hne, hf]

/-- The entry left by the crawl of one entry. -/
theorem enrich_fst (env : Env) (feed : Feed) (e : Entry) :
    (enrich env feed e).1 =
      if feed.Crawler = true ∧ env.entryURLExists feed.ID e.URL = false ∧
          (env.fetch e.URL feed.ScraperRules feed.UserAgent).2 = none ∧
          (env.fetch e.URL feed.ScraperRules feed.UserAgent).1 ≠ "" then
        { e with Content := (env.fetch e.URL feed.ScraperRules feed.UserAgent).1 }
      else e := by
  unfold enrich
  cases hc : feed.Crawler <;> cases hx : env.entryURLExists feed.ID e.URL <;>
    cases hf : (env.fetch e.URL feed.ScraperRules feed.UserAgent).2 <;>
    by_cases hne : (env.fetch e.URL feed.ScraperRules feed.UserAgent).1 = "" <;>
    simp [hne, hf]

/-- The entry left by one turn of the loop of `ProcessFeedEntries`. -/
theorem processEntry_fst (env : Env) (feed : Feed) (e : Entry) :
    (processEntry env feed e).1 =
      { e with Content :=
          env.sanitize e.URL (env.rewriter e.URL (enrich env feed e).1.Content feed.RewriteRules) } := by
  have hu := enrich_URL env feed e
  have hf := enrich_fst env feed e
  simp only [processEntry, hu]
  rw [hf]
  split <;> rfl

theorem fetchCalls_filterFeedEntries (env : Env) (feed : Feed) :
    fetchCalls ((keepStage env feed).2 ++
      (if feed.BlocklistRules = "" then []
       else matchEvents feed.BlocklistRules (keepStage env feed).1)) = [] := by
  rw [fetchCalls_append, keepStage_eq]
  by_cases hk : feed.KeeplistRules = "" <;> by_cases hb : feed.BlocklistRules = "" <;>
    simp [hk, hb, fetchCalls_matchEvents] <;> rfl

/-! ## ProcessFeedEntries: the claims -/

/-- C3. `ProcessFeedEntries` calls the scraper once for each surviving entry
for which `feed.Crawler` is true and `EntryURLExists(feed.ID, entry.URL)` is
false, with `(entry.URL, feed.ScraperRules, feed.UserAgent)`, and for no other
entry: the calls of the batch are those of its entries in order, and one turn
of the loop makes that one call or none.  When the crawler is off or the entry
is already stored, no call is made and the rewriter receives the original
content of the entry. -/
theorem ProcessFeedEntries_fetch_calls (env : Env) (feed : Feed) :
    ∃ kept t0 feed1 tr,
      filterFeedEntries env feed = some ({ feed with Entries := kept }, t0) ∧
      ProcessFeedEntries env feed = some (feed1, tr) ∧
      tr = t0 ++ kept.flatMap (fun e => (processEntry env feed e).2) ∧
      fetchCalls tr =
        (kept.filter (fun e => feed.Crawler && !env.entryURLExists feed.ID e.URL)).map
          (fun e => (e.URL, feed.ScraperRules, feed.UserAgent)) ∧
      (∀ e, fetchCalls (processEntry env feed e).2 =
        if feed.Crawler = true ∧ env.entryURLExists feed.ID e.URL = false then
          [(e.URL, feed.ScraperRules, feed.UserAgent)]
        else []) ∧
      (∀ e, feed.Crawler = false ∨ env.entryURLExists feed.ID e.URL = true →
        fetchCalls (processEntry env feed e).2 = [] ∧
        rewriterCalls (processEntry env feed e).2 = [(e.URL, e.Content, feed.RewriteRules)]) := by
  have hfilter := filterFeedEntries_eq env feed
  refine ⟨_, _, _, _, hfilter, ProcessFeedEntries_eq env feed _ _ hfilter, rfl, ?_,
    fetchCalls_processEntry env feed, ?_⟩
  · rw [fetchCalls_append, fetchCalls_filterFeedEntries, List.nil_append, fetchCalls_flatMap]
  · intro e h
    have hnot : ¬ (feed.Crawler = true ∧ env.entryURLExists feed.ID e.URL = false) := by
      rcases h with h | h <;> simp [h]
    refine ⟨by rw [fetchCalls_processEntry, if_neg hnot], ?_⟩
    have hfst : (enrich env feed e).1 = e := by
      rw [enrich_fst]
      exact if_neg (fun hh => hnot ⟨hh.1, hh.2.1⟩)
    have hr := (transformCalls_enrich env feed e).1
    unfold rewriterCalls at hr ⊢
    simp only [processEntry, List.filterMap_append, hr, hfst]
    simp

/-- Witness of C3: the sample entry that is already stored is not fetched,
though the crawler is on. -/
theorem ProcessFeedEntries_fetch_calls_witness :
    sampleEnv.entryURLExists 7 "https://example.org/seen" = true ∧
    fetchCalls (processEntry sampleEnv (sampleFeed true "" "" "")
      (sampleEntry 2 "https://example.org/seen" "Python")).2 = [] ∧
    rewriterCalls (processEntry sampleEnv (sampleFeed true "" "" "")
      (sampleEntry 2 "https://example.org/seen" "Python")).2 =
        [("https://example.org/seen", "summary", "")] := by
  obtain ⟨_, _, _, _, _, _, _, _, _, h⟩ :=
    ProcessFeedEntries_fetch_calls sampleEnv (sampleFeed true "" "" "")
  exact ⟨rfl, h (sampleEntry 2 "https://example.org/seen" "Python") (Or.inr rfl)⟩

/-- C4. After `ProcessFeedEntries` the entries of the feed are the surviving
entries, one for one and in order, each with the content
`Sanitize(URL, Rewrite(URL, c, feed.RewriteRules))` where `c` is the content
the crawl of that entry left, whatever the crawler flag, the stored entries
and the outcome of any fetch.  In each turn of the loop the rewriter is called
after the crawl, then the sanitizer on the rewriter's result, and the crawl
itself calls neither. -/
theorem ProcessFeedEntries_rewrite_then_sanitize (env : Env) (feed : Feed) :
    ∃ kept t0 tr,
      filterFeedEntries env feed = some ({ feed with Entries := kept }, t0) ∧
      ProcessFeedEntries env feed =
        some ({ feed with Entries := kept.map (fun e =>
          { e with Content := (env.sanitize e.URL
              (env.rewriter e.URL (enrich env feed e).1.Content feed.RewriteRules)) }) }, tr) ∧
      tr = t0 ++ kept.flatMap (fun e => (processEntry env feed e).2) ∧
      ∀ e, (processEntry env feed e).2 =
          Event.logDebug feed.ID e.URL :: (enrich env feed e).2 ++
            [Event.rewriter e.URL (enrich env feed e).1.Content feed.RewriteRules,
             Event.sanitize e.URL
               (env.rewriter e.URL (enrich env feed e).1.Content feed.RewriteRules)] ∧
        rewriterCalls (enrich env feed e).2 = [] ∧
        sanitizeCalls (enrich env feed e).2 = [] := by
  have hfilter := filterFeedEntries_eq env feed
  refine ⟨_, _, _, hfilter, ?_, rfl, ?_⟩
  · rw [ProcessFeedEntries_eq env feed _ _ hfilter]
    simp only [processEntry_fst]
  · intro e
    refine ⟨?_, transformCalls_enrich env feed e⟩
    simp [processEntry, enrich_URL]

/-- C5. When the scraper is called for an entry (crawler on, entry not yet
stored), the crawl replaces `entry.Content` by the fetched content if the
scraper returned no error and a non-empty string, and leaves the entry as it
was otherwise; in particular the content is unchanged when the scraper
returns an error or the empty string without error. -/
theorem enrich_overwrites_on_success_only (env : Env) (feed : Feed) (e : Entry)
    (hc : feed.Crawler = true) (hx : env.entryURLExists feed.ID e.URL = false) :
    fetchCalls (enrich env feed e).2 = [(e.URL, feed.ScraperRules, feed.UserAgent)] ∧
    (enrich env feed e).1 =
      (if (env.fetch e.URL feed.ScraperRules feed.UserAgent).2 = none ∧
          (env.fetch e.URL feed.ScraperRules feed.UserAgent).1 ≠ "" then
        { e with Content := (env.fetch e.URL feed.ScraperRules feed.UserAgent).1 }
      else e) ∧
    ((env.fetch e.URL feed.ScraperRules feed.UserAgent).2 ≠ none ∨
        env.fetch e.URL feed.ScraperRules feed.UserAgent = ("", none) →
      (enrich env feed e).1.Content = e.Content) := by
  refine ⟨?_, ?_, ?_⟩
  · rw [fetchCalls_enrich, if_pos ⟨hc, hx⟩]
  · rw [enrich_fst]
    simp [hc, hx]
  · intro h
    rw [enrich_fst, if_neg]
    rintro ⟨_, _, h2, h1⟩
    rcases h with h | h
    · exact h h2
    · exact h1 (by rw [h])

/-- Witness of C5: the sample entry whose page cannot be fetched keeps its
summary. -/
theorem enrich_overwrites_on_success_only_witness :
    (sampleFeed true "" "" "").Crawler = true ∧
    sampleEnv.entryURLExists 7 "https://example.org/down" = false ∧
    sampleEnv.fetch "https://example.org/down" "article" "ua" = ("", some "connection refused") ∧
    (enrich sampleEnv (sampleFeed true "" "" "")
      (sampleEntry 3 "https://example.org/down" "Golang")).1.Content = "summary" :=
  ⟨rfl, rfl, rfl,
    (enrich_overwrites_on_success_only sampleEnv (sampleFeed true "" "" "")
      (sampleEntry 3 "https://example.org/down" "Golang") rfl rfl).2.2
      (Or.inl (by decide))⟩

/-! ## ProcessEntryWebPage: the claims -/

/-- C6. `ProcessEntryWebPage` returns the error of the scraper, so it returns
an error iff the scraper does; in that case the entry is unchanged and neither
the rewriter nor the sanitizer is called.  The scraper is called once whatever
the crawler flag, and the store is not asked whether the entry exists. -/
theorem ProcessEntryWebPage_returns_fetch_error (env : Env) (feed : Feed) (e : Entry) :
    (ProcessEntryWebPage env feed e).2.1 =
      (env.fetch e.URL feed.ScraperRules feed.UserAgent).2 ∧
    ((ProcessEntryWebPage env feed e).2.1 ≠ none ↔
      (env.fetch e.URL feed.ScraperRules feed.UserAgent).2 ≠ none) ∧
    ((env.fetch e.URL feed.ScraperRules feed.UserAgent).2 ≠ none →
      (ProcessEntryWebPage env feed e).1 = e ∧
      rewriterCalls (ProcessEntryWebPage env feed e).2.2 = [] ∧
      sanitizeCalls (ProcessEntryWebPage env feed e).2.2 = []) ∧
    fetchCalls (ProcessEntryWebPage env feed e).2.2 =
      [(e.URL, feed.ScraperRules, feed.UserAgent)] ∧
    existsCalls (ProcessEntryWebPage env feed e).2.2 = [] := by
  unfold ProcessEntryWebPage
  cases hm : env.hasMetricsCollector <;>
    cases hf : (env.fetch e.URL feed.ScraperRules feed.UserAgent).2 <;>
    by_cases hne : env.sanitize e.URL
      (env.rewriter e.URL (env.fetch e.URL feed.ScraperRules feed.UserAgent).1
        feed.RewriteRules) = "" <;>
    simp [hne, hf, fetchCalls, rewriterCalls, sanitizeCalls, existsCalls]

/-- Witness of C6: the sample page that cannot be fetched. -/
theorem ProcessEntryWebPage_returns_fetch_error_witness :
    (sampleEnv.fetch "https://example.org/down" "article" "ua").2 ≠ none ∧
    (ProcessEntryWebPage sampleEnv (sampleFeed false "add_youtube_video" "" "")
      (sampleEntry 3 "https://example.org/down" "Golang")).1 =
        sampleEntry 3 "https://example.org/down" "Golang" ∧
    rewriterCalls (ProcessEntryWebPage sampleEnv (sampleFeed false "add_youtube_video" "" "")
      (sampleEntry 3 "https://example.org/down" "Golang")).2.2 = [] ∧
    sanitizeCalls (ProcessEntryWebPage sampleEnv (sampleFeed false "add_youtube_video" "" "")
      (sampleEntry 3 "https://example.org/down" "Golang")).2.2 = [] :=
  ⟨by decide,
    (ProcessEntryWebPage_returns_fetch_error sampleEnv
      (sampleFeed false "add_youtube_video" "" "")
      (sampleEntry 3 "https://example.org/down" "Golang")).2.2.1 (by decide)⟩

/-- C7, as stated, fails.  The scraper returns a script and no error: the
fetched content is not empty, yet the entry keeps its summary, which is not
the sanitized text (the empty string).  The scraper returns the empty string
and no error, and the rewrite rule adds a player: the content of the entry
changes. -/
theorem ProcessEntryWebPage_raw_content_counterexample :
    (sampleEnv.fetch "https://example.org/script" "article" "ua" =
        ("<script>alert(1)</script>", none) ∧
      sampleEnv.sanitize "https://example.org/script"
        (sampleEnv.rewriter "https://example.org/script" "<script>alert(1)</script>" "") = "" ∧
      (ProcessEntryWebPage sampleEnv (sampleFeed false "" "" "")
        (sampleEntry 4 "https://example.org/script" "Video")).1.Content = "summary") ∧
    (sampleEnv.fetch "https://example.org/empty" "article" "ua" = ("", none) ∧
      (sampleEntry 5 "https://example.org/empty" "Video").Content = "summary" ∧
      (ProcessEntryWebPage sampleEnv (sampleFeed false "add_youtube_video" "" "")
        (sampleEntry 5 "https://example.org/empty" "Video")).1.Content =
          "<iframe></iframe><br>") := by
  decide

/-- C7, amended. When the scraper returns no error, `ProcessEntryWebPage`
returns no error and decides on the rewritten and sanitized content: if
`Sanitize(URL, Rewrite(URL, fetched, feed.RewriteRules))` is not empty it
becomes the content of the entry, otherwise the entry is unchanged. -/
theorem ProcessEntryWebPage_success (env : Env) (feed : Feed) (e : Entry)
    (hok : (env.fetch e.URL feed.ScraperRules feed.UserAgent).2 = none) :
    (ProcessEntryWebPage env feed e).2.1 = none ∧
    (ProcessEntryWebPage env feed e).1 =
      (if env.sanitize e.URL
          (env.rewriter e.URL (env.fetch e.URL feed.ScraperRules feed.UserAgent).1
            feed.RewriteRules) ≠ "" then
        { e with Content := (env.sanitize e.URL
            (env.rewriter e.URL (env.fetch e.URL feed.ScraperRules feed.UserAgent).1
              feed.RewriteRules)) }
      else e) := by
  unfold ProcessEntryWebPage
  by_cases hne : env.sanitize e.URL
      (env.rewriter e.URL (env.fetch e.URL feed.ScraperRules feed.UserAgent).1
        feed.RewriteRules) = "" <;>
    simp [hne, hok]

/-- Witness of the amended C7: the sample page that can be fetched. -/
theorem ProcessEntryWebPage_success_witness :
    (sampleEnv.fetch "https://example.org/go12" "article" "ua").2 = none ∧
    (ProcessEntryWebPage sampleEnv (sampleFeed false "" "" "")
      (sampleEntry 1 "https://example.org/go12" "Go 1.2")).2.1 = none ∧
    (ProcessEntryWebPage sampleEnv (sampleFeed false "" "" "")
      (sampleEntry 1 "https://example.org/go12" "Go 1.2")).1 =
        { sampleEntry 1 "https://example.org/go12" "Go 1.2" with
          Content := "<p>full text</p>" } :=
  ⟨rfl, ProcessEntryWebPage_success sampleEnv (sampleFeed false "" "" "")
    (sampleEntry 1 "https://example.org/go12" "Go 1.2") rfl⟩

end Processor
